import Mathlib

/-!
Verification of the AutoStile ("context bridge") component from
contrib/autowiring/autowiring/AutoStile.h.

The bridge is embedded shallowly:

* `Wrapper` models the static `data_pipe` template argument of a declared
  parameter: `autoIn t` is any input wrapper for value type `t`, `autoOut t` is
  the distinguished extraction marker `auto_out<t>`, and `otherOut k t` is any
  other output wrapper type (which the `static_assert` in the source rejects).
* `Packet` models an AutoPacket: a list of typed decorations plus the one-shot
  recipients registered on it.  A decoration stores a reference (`Ref`) into an
  explicit heap, so sharing versus deep copy is observable.
* `BridgeSt` is the AutoStile state: exactly the one member `m_slave_factory`,
  a weak handle modelled as `Option FactoryId` plus a liveness environment.
* `World` adds the notification subscriptions that `Leash` registers on
  contexts; in C++ these live in the contexts, not in the bridge object.

External collaborator semantics (AutoPacket, CoreContext registry) are not
under src/; where they decide behaviour they are modelled from the spec and
marked as such.
-/

namespace AutoStile

abbrev TypeId := Nat
abbrev Ref := Nat
abbrev Value := Nat
abbrev FactoryId := Nat
abbrev CtxId := Nat

/-- A heap mapping references to values; used to distinguish reference sharing
from value copying. -/
abbrev Heap := Ref → Value

def hread (h : Heap) (r : Ref) : Value := h r

def hwrite (h : Heap) (r : Ref) (v : Value) : Heap :=
  fun x => if x = r then v else h x

/-- The static type of one declared AutoStile parameter (the C++ `data_pipe`
template argument).  `autoOut t` is the marker type `auto_out<t>`; `otherOut`
stands for any other wrapper that `auto_arg` classifies as an output. -/
inductive Wrapper where
  | autoIn : TypeId → Wrapper
  | autoOut : TypeId → Wrapper
  | otherOut : Nat → TypeId → Wrapper
deriving DecidableEq

/-- Modelled from the spec: the external Parameter Classifier (`auto_arg`)
reports direction, with direction ∈ \x7bInput, Output\x7d binary. -/
def Wrapper.is_input : Wrapper → Bool
  | .autoIn _ => true
  | _ => false

def Wrapper.is_output (w : Wrapper) : Bool := !w.is_input

/-- Modelled from the spec: the classifier also reports the underlying value
type (`auto_arg<data_pipe>::id_type`). -/
def Wrapper.id_type : Wrapper → TypeId
  | .autoIn t => t
  | .autoOut t => t
  | .otherOut _ t => t

/-- The `static_assert(std::is_same<data_pipe, auto_out<id_type>>::value, ...)`
in the output overload of `DecorationStile`: an output parameter compiles only
when its wrapper is exactly `auto_out` of its value type. -/
def staticAssertOk (w : Wrapper) : Bool :=
  !w.is_output || (w == Wrapper.autoOut w.id_type)

/-- A translation unit instantiating `AutoStile<Args...>` compiles iff every
declared parameter passes the per-parameter static assertion.  This predicate
depends only on the static parameter list, never on any run-time state. -/
def compiles (params : List Wrapper) : Bool := params.all staticAssertOk

/-- Modelled from the spec: `var_and<auto_arg<Args>::is_input...>::value` from
var_logic.h (not under src/): the logical AND of `is_input` over the declared
parameter list. -/
def var_and (params : List Wrapper) : Bool := params.all Wrapper.is_input

/-- A one-shot recipient registered on a packet: `extract t d` is the
reverse-orientation subscriber registered for an `auto_out` parameter (fires on
a slave decoration of type `t`, deep-copies into destination `d`);
`forwardAll` is the catch-all subscriber installed by `ForwardStile`. -/
inductive Recipient where
  | extract : TypeId → Ref → Recipient
  | forwardAll : Recipient
deriving DecidableEq

structure Packet where
  decorations : List (TypeId × Ref)
  recipients : List Recipient
deriving DecidableEq

/-- Modelled from the spec: `NewPacket()` on the factory returns a fresh
packet. -/
def emptyPacket : Packet := ⟨[], []⟩

/-- One `DecorationStile<data_pipe>` call: the input overload decorates the
slave packet sharing the master reference (`slave_packet->Decorate(master_data)`,
no copy); the output overload registers the reverse extraction recipient
(`slave_packet->AddRecipient<void, auto_in<id_type>>(...)`). -/
def DecorationStile (slave : Packet) (w : Wrapper) (r : Ref) : Packet :=
  if w.is_input then
    { slave with decorations := slave.decorations ++ [(w.id_type, r)] }
  else
    { slave with recipients := slave.recipients ++ [Recipient.extract w.id_type r] }

/-- `ForwardStile`: registers the catch-all recipient that forwards the whole
slave decoration set into the master packet. -/
def ForwardStile (slave : Packet) : Packet :=
  { slave with recipients := slave.recipients ++ [Recipient.forwardAll] }

/-- The AutoStile state: exactly the one data member
`std::weak_ptr<AutoPacketFactory> m_slave_factory`. -/
structure BridgeSt where
  m_slave_factory : Option FactoryId
deriving DecidableEq

/-- `weak_ptr::lock` on the factory handle: yields the factory iff the handle
is nonempty and the factory is still alive. -/
def lockFactory (alive : FactoryId → Bool) : Option FactoryId → Option FactoryId
  | none => none
  | some f => if alive f then some f else none

/-- The slave packet built by one bound invocation: the variadic initializer
`bool init[] = \x7bDecorationStile<Args>(...)...\x7d` dispatches once per declared
parameter in order, then `ForwardStile` is applied iff `var_and` holds. -/
def slaveMade (params : List Wrapper) (args : List Ref) : Packet :=
  let sp := (params.zip args).foldl (fun p wr => DecorationStile p wr.1 wr.2) emptyPacket
  if var_and params then ForwardStile sp else sp

/-- The observable outcome of one `AutoFilter` call: the bridge state after the
call, the slave packet created (if any), and the master packet after the
call. -/
structure FilterOutcome where
  bridge : BridgeSt
  slave : Option Packet
  master : Packet
deriving DecidableEq

/-- `AutoStile::AutoFilter(AutoPacket& packet, Args... data)`: lock
`m_slave_factory`; if the lock fails return immediately; otherwise create a
slave packet, dispatch every declared parameter, and install the catch-all
forwarder iff all parameters are inputs.  The master packet itself is not
written. -/
def AutoFilter (alive : FactoryId → Bool) (b : BridgeSt) (params : List Wrapper)
    (args : List Ref) (master : Packet) : FilterOutcome :=
  if (lockFactory alive b.m_slave_factory).isSome then
    ⟨b, some (slaveMade params args), master⟩
  else
    ⟨b, none, master⟩

/-- A pending `NotifyWhenAutowired<AutoPacketFactory>` subscription: it lives
in the target context, and its callback captures the weak context reference
passed to `Leash`. -/
structure Subscription where
  ctx : CtxId
deriving DecidableEq

/-- The bridge together with the notification subscriptions currently
registered on contexts (external registry state, not bridge members). -/
structure World where
  bridge : BridgeSt
  pending : List Subscription
deriving DecidableEq

/-- `weak_ptr::lock` on a context handle. -/
def lockCtx (ctxAlive : CtxId → Bool) : Option CtxId → Option CtxId
  | none => none
  | some c => if ctxAlive c then some c else none

/-- `AutoStile::Leash(slave_context)`: first `m_slave_factory.reset()`; then
lock the context; if dead, return; otherwise register the one-shot
notification subscription on it.  The previously registered subscriptions are
not cancelled. -/
def Leash (ctxAlive : CtxId → Bool) (slave_context : Option CtxId) (w : World) : World :=
  match lockCtx ctxAlive slave_context with
  | none => ⟨⟨none⟩, w.pending⟩
  | some c => ⟨⟨none⟩, w.pending ++ [⟨c⟩]⟩

/-- The body of the notification callback registered by `Leash`: re-lock the
captured context; if dead, return with no change; otherwise run
`FindByTypeRecursive` (modelled from the spec as `find`, a best-effort lookup
that may fail) and assign the result to `m_slave_factory`. -/
def notifyBody (ctxAlive : CtxId → Bool) (find : CtxId → Option FactoryId)
    (sub : Subscription) (b : BridgeSt) : BridgeSt :=
  if ctxAlive sub.ctx then ⟨find sub.ctx⟩ else b

/-- Modelled from the spec: the registry delivers a pending one-shot
notification; the subscription is consumed and its callback body runs. -/
def fireNotification (ctxAlive : CtxId → Bool) (find : CtxId → Option FactoryId)
    (i : Nat) (w : World) : World :=
  match w.pending.get? i with
  | none => w
  | some sub => ⟨notifyBody ctxAlive find sub w.bridge, w.pending.eraseIdx i⟩

/-- Whether a recipient is an extraction subscriber keyed on slave decoration
type `t`. -/
def Recipient.firesOn (t : TypeId) : Recipient → Bool
  | .extract u _ => u == t
  | .forwardAll => false

/-- Modelled from the spec: `AddRecipient` callbacks are one-shot, delivered
exactly once when the packet satisfies their declared input.  When a value of
type `t` (stored at `src`) is decorated, every extraction recipient keyed on
`t` fires once — performing the deep copy `*master_data = *slave_data` from the
lambda in `DecorationStile` — and is consumed; all other recipients remain. -/
def runExtracts (t : TypeId) (src : Ref) : List Recipient → Heap → List Recipient × Heap
  | [], h => ([], h)
  | Recipient.extract u d :: rest, h =>
    if u = t then runExtracts t src rest (hwrite h d (hread h src))
    else
      let q := runExtracts t src rest h
      (Recipient.extract u d :: q.1, q.2)
  | Recipient.forwardAll :: rest, h =>
    let q := runExtracts t src rest h
    (Recipient.forwardAll :: q.1, q.2)

/-- Modelled from the spec: the slave pipeline decorating its packet with a
value of type `t` stored at `src`: the decoration is published and the ready
one-shot recipients fire. -/
def slaveDecorate (t : TypeId) (src : Ref) (p : Packet) (h : Heap) : Packet × Heap :=
  let q := runExtracts t src p.recipients h
  (⟨p.decorations ++ [(t, src)], q.1⟩, q.2)

/-- The destinations captured by the extraction recipients of a list. -/
def extractDests : List Recipient → List Ref
  | [] => []
  | Recipient.extract _ d :: rest => d :: extractDests rest
  | Recipient.forwardAll :: rest => extractDests rest

/-- Whether a packet already owns a decoration of type `t`. -/
def hasDeco (p : Packet) (t : TypeId) : Bool := p.decorations.any (fun x => x.1 == t)

/-- Modelled from the spec: `AutoPacket::ForwardAll(target)` merges this
packet's full decoration set into the target, skipping types the target
already owns (the external collision policy). -/
def ForwardAll (src tgt : Packet) : Packet :=
  { tgt with decorations := tgt.decorations ++ src.decorations.filter (fun x => !hasDeco tgt x.1) }

/-- Modelled from the spec: when the slave packet is finalized, an installed
catch-all recipient fires and forwards the whole decoration set into the
master packet. -/
def finalizeSlave (slave master : Packet) : Packet :=
  if Recipient.forwardAll ∈ slave.recipients then ForwardAll slave master else master

/-- The decorations contributed by the input parameters of a dispatch list, in
order. -/
def inputDecos (l : List (Wrapper × Ref)) : List (TypeId × Ref) :=
  l.filterMap (fun wr => if wr.1.is_input then some (wr.1.id_type, wr.2) else none)

/-- The extraction recipients contributed by the output parameters of a
dispatch list, in order. -/
def outputRecips (l : List (Wrapper × Ref)) : List Recipient :=
  l.filterMap (fun wr =>
    if wr.1.is_output then some (Recipient.extract wr.1.id_type wr.2) else none)

theorem foldl_decoration (l : List (Wrapper × Ref)) (p : Packet) :
    l.foldl (fun q wr => DecorationStile q wr.1 wr.2) p
      = ⟨p.decorations ++ inputDecos l, p.recipients ++ outputRecips l⟩ := by
  induction l generalizing p with
  | nil => simp [inputDecos, outputRecips]
  | cons wr rest ih =>
    rw [List.foldl_cons, ih]
    cases hwi : wr.1.is_input with
    | true =>
      simp [DecorationStile, hwi, inputDecos, outputRecips, Wrapper.is_output,
        List.filterMap_cons]
    | false =>
      simp [DecorationStile, hwi, inputDecos, outputRecips, Wrapper.is_output,
        List.filterMap_cons]

theorem slaveMade_decorations (params : List Wrapper) (args : List Ref) :
    (slaveMade params args).decorations = inputDecos (params.zip args) := by
  unfold slaveMade
  rw [foldl_decoration]
  split <;> simp [ForwardStile, emptyPacket]

theorem slaveMade_recipients_all_input (params : List Wrapper) (args : List Ref)
    (h : var_and params = true) :
    (slaveMade params args).recipients
      = outputRecips (params.zip args) ++ [Recipient.forwardAll] := by
  unfold slaveMade
  rw [foldl_decoration]
  simp [h, ForwardStile, emptyPacket]

theorem slaveMade_recipients_some_output (params : List Wrapper) (args : List Ref)
    (h : var_and params = false) :
    (slaveMade params args).recipients = outputRecips (params.zip args) := by
  unfold slaveMade
  rw [foldl_decoration]
  simp [h, emptyPacket]

theorem forwardAll_not_mem_outputRecips (l : List (Wrapper × Ref)) :
    Recipient.forwardAll ∉ outputRecips l := by
  intro hmem
  rcases List.mem_filterMap.mp hmem with ⟨wr, _, heq⟩
  by_cases hwo : wr.1.is_output = true <;> simp [hwo] at heq

theorem get?_zip {α β : Type} (l1 : List α) (l2 : List β) (k : Nat) (a : α) (b : β)
    (h1 : l1.get? k = some a) (h2 : l2.get? k = some b) :
    (l1.zip l2).get? k = some (a, b) := by
  induction l1 generalizing l2 k with
  | nil => simp at h1
  | cons x xs ih =>
    cases l2 with
    | nil => simp at h2
    | cons y ys =>
      cases k with
      | zero =>
        simp_all [List.zip_cons_cons]
      | succ n =>
        simp only [List.get?_cons_succ] at h1 h2
        simpa [List.zip_cons_cons] using ih ys n h1 h2

/-- C1: on a Bridge whose weak factory handle does not lock, `AutoFilter`
returns immediately: no slave packet is created, the master packet is
unchanged, the bridge state is unchanged, and there is no other side
effect. -/
theorem C1_unbound_invoke_noop (alive : FactoryId → Bool) (b : BridgeSt)
    (params : List Wrapper) (args : List Ref) (master : Packet)
    (hb : lockFactory alive b.m_slave_factory = none) :
    AutoFilter alive b params args master = ⟨b, none, master⟩ := by
  simp [AutoFilter, hb]

theorem C1_unbound_invoke_noop_witness :
    AutoFilter (fun _ => true) ⟨none⟩ [Wrapper.autoIn 1] [5] ⟨[(1, 5)], []⟩
      = ⟨⟨none⟩, none, ⟨[(1, 5)], []⟩⟩ :=
  C1_unbound_invoke_noop (fun _ => true) ⟨none⟩ [Wrapper.autoIn 1] [5] ⟨[(1, 5)], []⟩ rfl

/-- C9: `AutoFilter` never mutates the Bridge's own state: bound or unbound,
the bridge (whose only field is the factory reference `m_slave_factory`) is
identical before and after the call. -/
theorem C9_invoke_preserves_bridge_state (alive : FactoryId → Bool) (b : BridgeSt)
    (params : List Wrapper) (args : List Ref) (master : Packet) :
    (AutoFilter alive b params args master).bridge = b := by
  unfold AutoFilter
  split <;> rfl

/-- C7: a declared output parameter whose wrapper type is not `auto_out` of
its value type makes the whole parameter list fail the static assertion, so
the program is rejected at compile/setup time — `compiles` depends only on the
static list, never on run-time state, so the error cannot surface at an
invocation. -/
theorem C7_wrong_output_wrapper_rejected (params : List Wrapper) (w : Wrapper)
    (hmem : w ∈ params) (hout : w.is_output = true)
    (hbad : w ≠ Wrapper.autoOut w.id_type) :
    compiles params = false := by
  have hw : staticAssertOk w = false := by
    simp [staticAssertOk, hout, hbad]
  cases hall : params.all staticAssertOk with
  | false => simpa [compiles] using hall
  | true =>
    exact absurd (List.all_eq_true.mp hall w hmem) (by simp [hw])

theorem C7_wrong_output_wrapper_rejected_witness :
    compiles [Wrapper.otherOut 0 5] = false :=
  C7_wrong_output_wrapper_rejected [Wrapper.otherOut 0 5] (Wrapper.otherOut 0 5)
    (by decide) (by decide) (by decide)

/-- C2: on a bound invocation, the catch-all forward-all recipient is
installed on the slave packet iff `var_and` holds of the declared list, which
holds iff zero output parameters are declared. -/
theorem C2_forward_all_iff_no_outputs (alive : FactoryId → Bool) (b : BridgeSt)
    (params : List Wrapper) (args : List Ref) (master : Packet)
    (hb : (lockFactory alive b.m_slave_factory).isSome = true) :
    AutoFilter alive b params args master = ⟨b, some (slaveMade params args), master⟩
    ∧ (Recipient.forwardAll ∈ (slaveMade params args).recipients ↔ var_and params = true)
    ∧ (var_and params = true ↔ params.countP (fun w => w.is_output) = 0) := by
  refine ⟨by simp [AutoFilter, hb], ?_, ?_⟩
  · cases hva : var_and params with
    | true =>
      rw [slaveMade_recipients_all_input params args hva]
      simp
    | false =>
      rw [slaveMade_recipients_some_output params args hva]
      simp [forwardAll_not_mem_outputRecips]
  · simp [var_and, List.all_eq_true, List.countP_eq_zero, Wrapper.is_output]

theorem C2_forward_all_iff_no_outputs_witness :
    (AutoFilter (fun _ => true) ⟨some 0⟩ [Wrapper.autoOut 2] [9] ⟨[], []⟩
      = ⟨⟨some 0⟩, some (slaveMade [Wrapper.autoOut 2] [9]), ⟨[], []⟩⟩)
    ∧ (Recipient.forwardAll ∈ (slaveMade [Wrapper.autoOut 2] [9]).recipients
        ↔ var_and [Wrapper.autoOut 2] = true)
    ∧ (var_and [Wrapper.autoOut 2] = true
        ↔ [Wrapper.autoOut 2].countP (fun w => w.is_output) = 0) :=
  C2_forward_all_iff_no_outputs (fun _ => true) ⟨some 0⟩ [Wrapper.autoOut 2] [9] ⟨[], []⟩ rfl

/-- C8: with zero declared parameters and a bound Bridge, `AutoFilter` still
creates a slave packet, performs no per-parameter dispatch (no decorations, no
extraction recipients), `var_and` is vacuously true, the catch-all recipient
is installed, and on finalization every slave decoration not colliding with
the master is mirrored into the master packet. -/
theorem C8_zero_params_forward_all (alive : FactoryId → Bool) (b : BridgeSt) (master : Packet)
    (hb : (lockFactory alive b.m_slave_factory).isSome = true) :
    AutoFilter alive b [] [] master = ⟨b, some ⟨[], [Recipient.forwardAll]⟩, master⟩
    ∧ var_and [] = true
    ∧ ∀ (decos : List (TypeId × Ref)) (m : Packet) (x : TypeId × Ref),
        x ∈ decos → hasDeco m x.1 = false →
        x ∈ (finalizeSlave ⟨decos, [Recipient.forwardAll]⟩ m).decorations := by
  refine ⟨?_, rfl, ?_⟩
  · simp [AutoFilter, hb, slaveMade, var_and, ForwardStile, emptyPacket]
  · intro decos m x hx hcol
    simp only [finalizeSlave, List.mem_singleton, if_pos (List.mem_singleton.mpr rfl),
      ForwardAll]
    exact List.mem_append_right _ (List.mem_filter.mpr ⟨hx, by simp [hcol]⟩)

theorem C8_zero_params_forward_all_witness :
    AutoFilter (fun _ => true) ⟨some 0⟩ [] [] ⟨[], []⟩
      = ⟨⟨some 0⟩, some ⟨[], [Recipient.forwardAll]⟩, ⟨[], []⟩⟩
    ∧ (3, 4) ∈ (finalizeSlave ⟨[(3, 4)], [Recipient.forwardAll]⟩ ⟨[], []⟩).decorations := by
  have h := C8_zero_params_forward_all (fun _ => true) ⟨some 0⟩ ⟨[], []⟩ rfl
  exact ⟨h.1, h.2.2 [(3, 4)] ⟨[], []⟩ (3, 4) (by decide) (by decide)⟩

/-- C4: `Leash` clears the factory reference first, so after any call the
bridge is unbound until a notification fires; if the target context is dead at
the call, no subscription is registered and nothing else changes; if the
context is dead when a pending notification later fires, the callback consumes
the subscription and leaves the bridge state untouched — silently, with no
error path in either case. -/
theorem C4_dead_context_stays_unbound :
    (∀ (ctxAlive : CtxId → Bool) (sc : Option CtxId) (w : World),
        (Leash ctxAlive sc w).bridge = ⟨none⟩)
    ∧ (∀ (ctxAlive : CtxId → Bool) (sc : Option CtxId) (w : World),
        lockCtx ctxAlive sc = none →
        Leash ctxAlive sc w = ⟨⟨none⟩, w.pending⟩)
    ∧ (∀ (ctxAlive : CtxId → Bool) (find : CtxId → Option FactoryId) (i : Nat)
        (w : World) (sub : Subscription),
        w.pending.get? i = some sub → ctxAlive sub.ctx = false →
        fireNotification ctxAlive find i w = ⟨w.bridge, w.pending.eraseIdx i⟩) := by
  refine ⟨?_, ?_, ?_⟩
  · intro ctxAlive sc w
    unfold Leash
    cases lockCtx ctxAlive sc <;> rfl
  · intro ctxAlive sc w h
    simp [Leash, h]
  · intro ctxAlive find i w sub hi hdead
    simp only [List.get?_eq_getElem?] at hi
    simp [fireNotification, hi, notifyBody, hdead]

theorem C4_dead_context_stays_unbound_witness :
    (Leash (fun _ => false) (some 0) ⟨⟨some 7⟩, []⟩).bridge = ⟨none⟩
    ∧ Leash (fun _ => false) (some 0) ⟨⟨some 7⟩, [⟨3⟩]⟩ = ⟨⟨none⟩, [⟨3⟩]⟩
    ∧ fireNotification (fun _ => false) (fun _ => some 9) 0 ⟨⟨some 7⟩, [⟨3⟩]⟩
        = ⟨⟨some 7⟩, []⟩ :=
  ⟨C4_dead_context_stays_unbound.1 (fun _ => false) (some 0) ⟨⟨some 7⟩, []⟩,
   C4_dead_context_stays_unbound.2.1 (fun _ => false) (some 0) ⟨⟨some 7⟩, [⟨3⟩]⟩ rfl,
   C4_dead_context_stays_unbound.2.2 (fun _ => false) (fun _ => some 9) 0
     ⟨⟨some 7⟩, [⟨3⟩]⟩ ⟨3⟩ rfl rfl⟩

/-- C10: when a pending notification fires for a still-alive context but the
recursive factory lookup finds nothing, the factory reference is assigned the
empty result, and any subsequent `AutoFilter` call on the resulting bridge
behaves exactly as on an unbound Bridge: no slave packet, master unchanged, no
error. -/
theorem C10_lookup_miss_acts_unbound (ctxAlive : CtxId → Bool)
    (find : CtxId → Option FactoryId) (i : Nat) (w : World) (sub : Subscription)
    (hi : w.pending.get? i = some sub)
    (halive : ctxAlive sub.ctx = true)
    (hfind : find sub.ctx = none) :
    (fireNotification ctxAlive find i w).bridge = ⟨none⟩
    ∧ ∀ (alive : FactoryId → Bool) (params : List Wrapper) (args : List Ref)
        (master : Packet),
        AutoFilter alive (fireNotification ctxAlive find i w).bridge params args master
          = ⟨⟨none⟩, none, master⟩ := by
  have hb : (fireNotification ctxAlive find i w).bridge = ⟨none⟩ := by
    simp only [List.get?_eq_getElem?] at hi
    simp [fireNotification, hi, notifyBody, halive, hfind]
  refine ⟨hb, ?_⟩
  intro alive params args master
  rw [hb]
  simp [AutoFilter, lockFactory]

theorem C10_lookup_miss_acts_unbound_witness :
    (fireNotification (fun _ => true) (fun _ => none) 0 ⟨⟨some 4⟩, [⟨2⟩]⟩).bridge = ⟨none⟩
    ∧ AutoFilter (fun _ => true)
        (fireNotification (fun _ => true) (fun _ => none) 0 ⟨⟨some 4⟩, [⟨2⟩]⟩).bridge
        [Wrapper.autoIn 1] [5] ⟨[], []⟩ = ⟨⟨none⟩, none, ⟨[], []⟩⟩ := by
  have h := C10_lookup_miss_acts_unbound (fun _ => true) (fun _ => none) 0
    ⟨⟨some 4⟩, [⟨2⟩]⟩ ⟨2⟩ rfl rfl rfl
  exact ⟨h.1, h.2 (fun _ => true) [Wrapper.autoIn 1] [5] ⟨[], []⟩⟩

/-- C3: evaluation of the code on the trace Leash(A); Leash(B); A's pending
notification fires with A still alive and A's factory found by the recursive
lookup.  The stale callback from the replaced bind assigns A's factory (11) to
`m_slave_factory` — an observable change of the Bridge's state caused by the
superseded subscription, because `Leash` never cancels the earlier
subscription and the callback never re-checks that it is still the current
bind.  This contradicts the claim that after rebinding to B only B's
resolution can ever set the factory reference. -/
theorem C3_stale_callback_overwrites_factory :
    (Leash (fun _ => true) (some 2)
        (Leash (fun _ => true) (some 1) ⟨⟨none⟩, []⟩)).bridge.m_slave_factory = none
    ∧ (fireNotification (fun _ => true) (fun c => if c = 1 then some 11 else none) 0
        (Leash (fun _ => true) (some 2)
          (Leash (fun _ => true) (some 1) ⟨⟨none⟩, []⟩))).bridge.m_slave_factory
      = some 11 := by
  constructor <;> rfl

theorem mem_inputDecos_of_get (params : List Wrapper) (args : List Ref) (k : Nat)
    (t : TypeId) (r : Ref)
    (hp : params.get? k = some (Wrapper.autoIn t)) (ha : args.get? k = some r) :
    (t, r) ∈ inputDecos (params.zip args) := by
  have hz := get?_zip params args k _ _ hp ha
  have hmem : (Wrapper.autoIn t, r) ∈ params.zip args := List.get?_mem hz
  exact List.mem_filterMap.mpr
    ⟨(Wrapper.autoIn t, r), hmem, by simp [Wrapper.is_input, Wrapper.id_type]⟩

theorem mem_outputRecips_of_get (params : List Wrapper) (args : List Ref) (k : Nat)
    (t : TypeId) (d : Ref)
    (hp : params.get? k = some (Wrapper.autoOut t)) (ha : args.get? k = some d) :
    Recipient.extract t d ∈ outputRecips (params.zip args) := by
  have hz := get?_zip params args k _ _ hp ha
  have hmem : (Wrapper.autoOut t, d) ∈ params.zip args := List.get?_mem hz
  exact List.mem_filterMap.mpr
    ⟨(Wrapper.autoOut t, d), hmem,
     by simp [Wrapper.is_output, Wrapper.is_input, Wrapper.id_type]⟩

theorem var_and_eq_false_of_output (params : List Wrapper) (w : Wrapper)
    (hmem : w ∈ params) (hout : w.is_output = true) :
    var_and params = false := by
  cases hva : var_and params with
  | false => rfl
  | true =>
    have := List.all_eq_true.mp hva w hmem
    simp [Wrapper.is_output, this] at hout

theorem dest_mem_extractDests (t : TypeId) (d : Ref) :
    ∀ (rs : List Recipient), Recipient.extract t d ∈ rs → d ∈ extractDests rs := by
  intro rs
  induction rs with
  | nil => intro h; simp at h
  | cons rc rest ih =>
    intro hmem
    rcases List.mem_cons.mp hmem with heq | htail
    · rw [← heq]
      simp [extractDests]
    · cases rc with
      | extract u d2 => simpa [extractDests] using Or.inr (ih htail)
      | forwardAll => simpa [extractDests] using ih htail

theorem runExtracts_frame (t : TypeId) (src : Ref) (x : Ref) :
    ∀ (rs : List Recipient) (h : Heap), x ∉ extractDests rs →
      (runExtracts t src rs h).2 x = h x := by
  intro rs
  induction rs with
  | nil => intro h _; rfl
  | cons rc rest ih =>
    intro h hx
    cases rc with
    | extract u d =>
      simp only [extractDests, List.mem_cons, not_or] at hx
      by_cases hu : u = t
      · rw [runExtracts, if_pos hu, ih _ hx.2]
        simp [hwrite, hx.1]
      · rw [runExtracts, if_neg hu]
        exact ih _ hx.2
    | forwardAll =>
      simp only [extractDests] at hx
      rw [runExtracts]
      exact ih _ hx

theorem runExtracts_copy (t : TypeId) (src : Ref) (d : Ref) :
    ∀ (rs : List Recipient) (h : Heap),
      (extractDests rs).Nodup → src ∉ extractDests rs →
      Recipient.extract t d ∈ rs →
      (runExtracts t src rs h).2 d = h src := by
  intro rs
  induction rs with
  | nil => intro h _ _ hmem; simp at hmem
  | cons rc rest ih =>
    intro h hnd hsrc hmem
    cases rc with
    | extract u d2 =>
      simp only [extractDests, List.nodup_cons] at hnd
      simp only [extractDests, List.mem_cons, not_or] at hsrc
      by_cases hu : u = t
      · rw [runExtracts, if_pos hu]
        rcases List.mem_cons.mp hmem with heq | htail
        · simp only [Recipient.extract.injEq] at heq
          rw [← heq.2] at hnd ⊢
          rw [runExtracts_frame t src d rest _ hnd.1]
          simp [hwrite, hread]
        · rw [ih _ hnd.2 hsrc.2 htail]
          simp [hwrite, hread, Ne.symm hsrc.1]
      · rw [runExtracts, if_neg hu]
        rcases List.mem_cons.mp hmem with heq | htail
        · exact absurd heq (by intro he; injection he with h1 _; exact hu h1.symm)
        · exact ih _ hnd.2 hsrc.2 htail
    | forwardAll =>
      simp only [extractDests] at hnd hsrc
      rcases List.mem_cons.mp hmem with heq | htail
      · exact absurd heq (by intro he; cases he)
      · rw [runExtracts]
        exact ih _ hnd hsrc htail

theorem runExtracts_consumes (t : TypeId) (src : Ref) :
    ∀ (rs : List Recipient) (h : Heap),
      ((runExtracts t src rs h).1).all (fun rc => !(Recipient.firesOn t rc)) = true := by
  intro rs
  induction rs with
  | nil => intro h; rfl
  | cons rc rest ih =>
    intro h
    cases rc with
    | extract u d =>
      by_cases hu : u = t
      · rw [runExtracts, if_pos hu]
        exact ih _
      · rw [runExtracts, if_neg hu]
        simpa [Recipient.firesOn, hu] using ih h
    | forwardAll =>
      rw [runExtracts]
      simpa [Recipient.firesOn] using ih h

theorem count_extract_eq_one (t : TypeId) (d : Ref) :
    ∀ (rs : List Recipient), (extractDests rs).Nodup →
      Recipient.extract t d ∈ rs → rs.count (Recipient.extract t d) = 1 := by
  intro rs
  induction rs with
  | nil => intro _ hmem; simp at hmem
  | cons rc rest ih =>
    intro hnd hmem
    cases rc with
    | extract u d2 =>
      simp only [extractDests, List.nodup_cons] at hnd
      by_cases heq : Recipient.extract u d2 = Recipient.extract t d
      · have hd2 : d2 = d := by
          simp only [Recipient.extract.injEq] at heq
          exact heq.2
        have hnotail : Recipient.extract t d ∉ rest := by
          intro htail
          exact hnd.1 (hd2 ▸ dest_mem_extractDests t d rest htail)
        rw [heq, List.count_cons_self, List.count_eq_zero.mpr hnotail]
      · have htail : Recipient.extract t d ∈ rest := by
          rcases List.mem_cons.mp hmem with h1 | h1
          · exact absurd h1.symm heq
          · exact h1
        rw [List.count_cons_of_ne (by exact fun he => heq he.symm) ]
        exact ih hnd.2 htail
    | forwardAll =>
      simp only [extractDests] at hnd
      have htail : Recipient.extract t d ∈ rest := by
        rcases List.mem_cons.mp hmem with h1 | h1
        · cases h1
        · exact h1
      rw [List.count_cons_of_ne (by intro he; cases he)]
      exact ih hnd htail

/-- C5: for an input parameter of a bound Bridge, `AutoFilter` decorates the
slave packet with the master's reference itself — the slave packet records the
very reference `r` supplied by the master, not a copy — so a mutation through
the shared reference before slave dispatch is read by the slave, and the
master packet (which retains the original) is unchanged by the call. -/
theorem C5_input_decoration_shares (alive : FactoryId → Bool) (b : BridgeSt)
    (params : List Wrapper) (args : List Ref) (master : Packet) (k : Nat)
    (t : TypeId) (r : Ref)
    (hb : (lockFactory alive b.m_slave_factory).isSome = true)
    (hp : params.get? k = some (Wrapper.autoIn t)) (ha : args.get? k = some r) :
    AutoFilter alive b params args master = ⟨b, some (slaveMade params args), master⟩
    ∧ (t, r) ∈ (slaveMade params args).decorations
    ∧ ∀ (h : Heap) (v : Value), hread (hwrite h r v) r = v := by
  refine ⟨by simp [AutoFilter, hb], ?_, ?_⟩
  · rw [slaveMade_decorations]
    exact mem_inputDecos_of_get params args k t r hp ha
  · intro h v
    simp [hread, hwrite]

theorem C5_input_decoration_shares_witness :
    AutoFilter (fun _ => true) ⟨some 0⟩ [Wrapper.autoIn 1, Wrapper.autoOut 2] [5, 6] ⟨[], []⟩
      = ⟨⟨some 0⟩, some (slaveMade [Wrapper.autoIn 1, Wrapper.autoOut 2] [5, 6]), ⟨[], []⟩⟩
    ∧ (1, 5) ∈ (slaveMade [Wrapper.autoIn 1, Wrapper.autoOut 2] [5, 6]).decorations
    ∧ hread (hwrite (fun _ => 0) 5 42) 5 = 42 := by
  have h := C5_input_decoration_shares (fun _ => true) ⟨some 0⟩
    [Wrapper.autoIn 1, Wrapper.autoOut 2] [5, 6] ⟨[], []⟩ 0 1 5 rfl rfl rfl
  exact ⟨h.1, h.2.1, h.2.2 (fun _ => 0) 42⟩

/-- C6: for an output parameter (`auto_out` of value type `t`, destination
`d`) of a bound Bridge, `AutoFilter` registers exactly one one-shot extraction
recipient on the slave packet, keyed on the complementary direction — it fires
on a slave decoration of the identical value type `t`.  When the slave
decorates `t` (stored at `src`), the recipient performs exactly one deep value
copy into the master destination `d`, is consumed (so it can never fire a
second time in the invocation), and a later mutation of the slave's original
value leaves the already-copied master destination unchanged. -/
theorem C6_output_one_shot_deep_copy (alive : FactoryId → Bool) (b : BridgeSt)
    (params : List Wrapper) (args : List Ref) (master : Packet) (k : Nat)
    (t : TypeId) (d : Ref)
    (hb : (lockFactory alive b.m_slave_factory).isSome = true)
    (hp : params.get? k = some (Wrapper.autoOut t)) (ha : args.get? k = some d)
    (hnd : (extractDests (slaveMade params args).recipients).Nodup) :
    AutoFilter alive b params args master = ⟨b, some (slaveMade params args), master⟩
    ∧ Recipient.extract t d ∈ (slaveMade params args).recipients
    ∧ (slaveMade params args).recipients.count (Recipient.extract t d) = 1
    ∧ ∀ (h : Heap) (src : Ref),
        src ∉ extractDests (slaveMade params args).recipients →
        (slaveDecorate t src (slaveMade params args) h).2 d = h src
        ∧ (∀ v : Value,
            hwrite (slaveDecorate t src (slaveMade params args) h).2 src v d = h src)
        ∧ ((slaveDecorate t src (slaveMade params args) h).1.recipients.all
            (fun rc => !(Recipient.firesOn t rc))) = true := by
  have hva : var_and params = false := by
    have hw : Wrapper.autoOut t ∈ params := List.get?_mem hp
    exact var_and_eq_false_of_output params _ hw rfl
  have hrec : (slaveMade params args).recipients = outputRecips (params.zip args) :=
    slaveMade_recipients_some_output params args hva
  have hmem : Recipient.extract t d ∈ (slaveMade params args).recipients := by
    rw [hrec]
    exact mem_outputRecips_of_get params args k t d hp ha
  have hdd : d ∈ extractDests (slaveMade params args).recipients :=
    dest_mem_extractDests t d _ hmem
  refine ⟨by simp [AutoFilter, hb], hmem, count_extract_eq_one t d _ hnd hmem, ?_⟩
  intro h src hsrc
  have hne : d ≠ src := fun he => hsrc (he ▸ hdd)
  have hcopy : (slaveDecorate t src (slaveMade params args) h).2 d = h src :=
    runExtracts_copy t src d _ h hnd hsrc hmem
  refine ⟨hcopy, ?_, runExtracts_consumes t src _ h⟩
  intro v
  rw [show hwrite (slaveDecorate t src (slaveMade params args) h).2 src v d
      = (slaveDecorate t src (slaveMade params args) h).2 d by simp [hwrite, hne]]
  exact hcopy

theorem C6_output_one_shot_deep_copy_witness :
    Recipient.extract 2 6 ∈ (slaveMade [Wrapper.autoIn 1, Wrapper.autoOut 2] [5, 6]).recipients
    ∧ (slaveMade [Wrapper.autoIn 1, Wrapper.autoOut 2] [5, 6]).recipients.count
        (Recipient.extract 2 6) = 1
    ∧ (slaveDecorate 2 9 (slaveMade [Wrapper.autoIn 1, Wrapper.autoOut 2] [5, 6])
        (fun x => x)).2 6 = (fun x : Nat => x) 9
    ∧ hwrite (slaveDecorate 2 9 (slaveMade [Wrapper.autoIn 1, Wrapper.autoOut 2] [5, 6])
        (fun x => x)).2 9 42 6 = (fun x : Nat => x) 9 := by
  have h := C6_output_one_shot_deep_copy (fun _ => true) ⟨some 0⟩
    [Wrapper.autoIn 1, Wrapper.autoOut 2] [5, 6] ⟨[], []⟩ 1 2 6 rfl rfl rfl (by decide)
  have h4 := h.2.2.2 (fun x => x) 9 (by decide)
  exact ⟨h.2.1, h.2.2.1, h4.1, h4.2.1 42⟩

end AutoStile
